import Mathlib

/-!
# Verification of the cfwlogd zone-cache synchronizer

Shallow embedding of `src/cfwlogd/src/zones.rs` (the `insert_vmobj` and
`alias_changed` functions and the event-fold loop of `start_vminfod`), together
with the data model of the `vminfod` crate events that the loop consumes.

The shared cache `Vmobjs = Arc<ShardedLock<HashMap<Zonedid, Zone>>>` is modelled
as a total map from zone id to optional record; the lock is immaterial to the
single-writer event fold, which is modelled as a pure fold over the ordered
event list delivered by the channel.
-/

namespace Cfwlogd

/-- `pub type Zonedid = u32` — the numeric zone id used as the cache key. -/
abbrev Zonedid := Nat

/-- Modelled from the spec: the `Zone` record type of the `vminfod` crate is not
under `src/` (zones.rs only imports it). Per the spec a zone record carries a
stable numeric zone id (the cache key), a uuid, and an opaque payload of
descriptive fields of which the tracked `alias` field is the one of interest;
records are atomic, replaceable units (the core never merges individual fields). -/
structure Zone where
  zonedid : Zonedid
  uuid : String
  aliasField : String
  deriving DecidableEq, Repr

/-- Modelled from the spec: the `Changes` payload type of the `vminfod` crate is
not under `src/`. Per the source comment in `alias_changed`, `path` is a
`Vec<Option<String>>`: an ordered list of optional path segments naming the
changed field; the first segment may be absent. -/
structure Changes where
  path : List (Option String)
  deriving DecidableEq, Repr

/-- Modelled from the spec: the `VminfodEvent` tagged union of the `vminfod`
crate is not under `src/`. `Ready` carries the snapshot as a JSON string
(`event.vms`) that the synchronizer decodes with `serde_json::from_str`; the
shallow embedding replaces that raw string by its decode result, with `none`
standing for a payload the decode rejects. -/
inductive VminfodEvent where
  | Ready (vms : Option (List Zone))
  | Create (vm : Zone)
  | Modify (vm : Zone) (changes : List Changes)
  | Delete (vm : Zone)
  deriving DecidableEq, Repr

/-- Is this event a `Ready` event? -/
def VminfodEvent.isReady : VminfodEvent → Bool
  | .Ready _ => true
  | _ => false

/-- The shared cache `Vmobjs`, modelled as a map from zone id to optional
record (`HashMap<Zonedid, Zone>` lookup semantics). -/
abbrev Vmobjs := Zonedid → Option Zone

/-- The empty cache the daemon hands to `start_vminfod`. -/
def emptyVmobjs : Vmobjs := fun _ => none

/-- `insert_vmobj`: inserts or updates an existing vmobj into a given `Vmobjs`
(`w.insert(zone.zonedid, zone)` under the write lock). -/
def insert_vmobj (zone : Zone) (vmobjs : Vmobjs) : Vmobjs :=
  fun k => if k = zone.zonedid then some zone else vmobjs k

/-- `alias_changed`: search through a vminfod changes payload and see if the
alias was part of the update. Mirrors the source loop with its early return and
the double `map_or` over `path.first()`. -/
def alias_changed : List Changes → Bool
  | [] => false
  | change :: rest =>
      if change.path.head?.elim false (fun v => v.elim false (fun a => a == "alias")) then
        true
      else
        alias_changed rest

/-- The snapshot load performed in the `Ready` arm of `start_vminfod`:
`for vm in vms { w.insert(vm.zonedid, vm) }` under a single write lock. -/
def bulkLoad (vms : List Zone) (w : Vmobjs) : Vmobjs :=
  vms.foldl (fun w vm => fun k => if k = vm.zonedid then some vm else w k) w

/-- State of the `vminfod_event_processor` thread: the `ready` flag guarded by
the condvar mutex, and the shared cache. -/
structure SyncState where
  ready : Bool
  cache : Vmobjs

/-- The three panic sites of the event-processor thread body:
`assert_eq!(*ready, false)` on a second `Ready`, the
`.expect("failed to parse vms payload from vminfod")` on a malformed snapshot,
and the trailing `panic!("vminfod event stream closed")` when the channel
drains. Distinct constructors model the distinct failure messages. -/
inductive ThreadPanic where
  | readyAssertFailed
  | vmsParseFailed
  | streamClosed
  deriving DecidableEq, Repr

/-- One iteration of the `for event in r.iter()` match in `start_vminfod`.
`Ready`: assert the flag is still false (else panic), decode the snapshot
(else panic), bulk-load it and set the flag. `Create`: upsert. `Modify`:
upsert only when `alias_changed`. `Delete`: no-op. -/
def applyEvent (s : SyncState) : VminfodEvent → Except ThreadPanic SyncState
  | .Ready decoded =>
      if s.ready then .error .readyAssertFailed
      else
        match decoded with
        | none => .error .vmsParseFailed
        | some vms => .ok ⟨true, bulkLoad vms s.cache⟩
  | .Create vm => .ok ⟨s.ready, insert_vmobj vm s.cache⟩
  | .Modify vm changes =>
      if alias_changed changes then .ok ⟨s.ready, insert_vmobj vm s.cache⟩
      else .ok s
  | .Delete _ => .ok s

/-- Fold the event loop over the (ordered) events delivered by the channel,
stopping at the first panic. -/
def runEvents (s : SyncState) : List VminfodEvent → Except ThreadPanic SyncState
  | [] => .ok s
  | e :: rest =>
      match applyEvent s e with
      | .ok s' => runEvents s' rest
      | .error p => .error p

/-- The whole thread body on a finite stream: drain the channel, and if no
event panicked, fall through to `panic!("vminfod event stream closed")`. The
body never returns normally, so its outcome is always a panic. -/
def processStream (s : SyncState) (events : List VminfodEvent) : ThreadPanic :=
  match runEvents s events with
  | .ok _ => .streamClosed
  | .error p => p

/-- The state of the thread when `start_vminfod` spawns it: flag false
(`Mutex::new(false)`), cache as handed in — the daemon passes a fresh empty
map, so the initial cache is empty. -/
def initState : SyncState := ⟨false, emptyVmobjs⟩

/-- The record a single event writes to the cache, if any: the snapshot for a
(successfully decoded) `Ready`, the record for a `Create`, the record for a
`Modify` whose changes touch the alias, nothing otherwise. -/
def eventWrites : VminfodEvent → List Zone
  | .Ready (some vms) => vms
  | .Ready none => []
  | .Create vm => [vm]
  | .Modify vm changes => if alias_changed changes then [vm] else []
  | .Delete _ => []

/-- All records written by an event sequence, in application order. -/
def writesOf (events : List VminfodEvent) : List Zone :=
  events.foldr (fun e acc => eventWrites e ++ acc) []

/-- Repeated `insert_vmobj` over a list of records, in order. -/
def upsertAll (vms : List Zone) (w : Vmobjs) : Vmobjs :=
  vms.foldl (fun w vm => insert_vmobj vm w) w

/-- The last record in `l` whose zone id is `k`, defaulting to `dflt` when no
record matches: the reference "last write wins" lookup. -/
def lastWriteFor (k : Zonedid) (l : List Zone) (dflt : Option Zone) : Option Zone :=
  l.foldl (fun acc z => if z.zonedid = k then some z else acc) dflt

/-! ## Helper lemmas -/

lemma lastWriteFor_nil (k : Zonedid) (d : Option Zone) : lastWriteFor k [] d = d := rfl

lemma lastWriteFor_cons (k : Zonedid) (z : Zone) (l : List Zone) (d : Option Zone) :
    lastWriteFor k (z :: l) d = lastWriteFor k l (if z.zonedid = k then some z else d) := rfl

lemma lastWriteFor_append (k : Zonedid) (a b : List Zone) (d : Option Zone) :
    lastWriteFor k (a ++ b) d = lastWriteFor k b (lastWriteFor k a d) :=
  List.foldl_append _ _ _ _

/-- The default only matters when no record of `l` has id `k`. -/
lemma lastWriteFor_elim (k : Zonedid) (l : List Zone) (d : Option Zone) :
    lastWriteFor k l d = (lastWriteFor k l none).elim d some := by
  induction l generalizing d with
  | nil => simp [lastWriteFor_nil]
  | cons z l ih =>
      rw [lastWriteFor_cons, lastWriteFor_cons, ih, ih (if z.zonedid = k then some z else none)]
      cases h : lastWriteFor k l none with
      | none => by_cases hz : z.zonedid = k <;> simp [hz]
      | some w => simp

lemma lastWriteFor_ne_none_of_default (k : Zonedid) (l : List Zone) (d : Option Zone)
    (hd : d ≠ none) : lastWriteFor k l d ≠ none := by
  induction l generalizing d with
  | nil => exact hd
  | cons z l ih =>
      rw [lastWriteFor_cons]
      by_cases hz : z.zonedid = k
      · simp only [hz, if_pos rfl]
        exact ih _ (by simp)
      · rw [if_neg hz]
        exact ih _ hd

/-- A record that appears in the list guarantees a non-`none` lookup at its id. -/
lemma lastWriteFor_mem_ne_none (k : Zonedid) (l : List Zone) (d : Option Zone)
    (h : ∃ z ∈ l, z.zonedid = k) : lastWriteFor k l d ≠ none := by
  induction l generalizing d with
  | nil => rcases h with ⟨z, hz, _⟩; cases hz
  | cons z l ih =>
      rw [lastWriteFor_cons]
      rcases h with ⟨w, hw, hwk⟩
      rcases List.mem_cons.mp hw with rfl | hw'
      · rw [if_pos hwk]
        exact lastWriteFor_ne_none_of_default _ _ _ (by simp)
      · exact ih _ ⟨w, hw', hwk⟩

/-- Pointwise description of repeated `insert_vmobj`: the last write wins. -/
lemma upsertAll_apply (vms : List Zone) (w : Vmobjs) (k : Zonedid) :
    upsertAll vms w k = lastWriteFor k vms (w k) := by
  induction vms generalizing w with
  | nil => rfl
  | cons z l ih =>
      show upsertAll l (insert_vmobj z w) k = _
      rw [ih, lastWriteFor_cons]
      rcases eq_or_ne z.zonedid k with h | h
      · simp [insert_vmobj, h]
      · simp [insert_vmobj, h, Ne.symm h]

/-- The `Ready`-arm snapshot loop is repeated `insert_vmobj`. -/
lemma bulkLoad_eq_upsertAll (vms : List Zone) (w : Vmobjs) : bulkLoad vms w = upsertAll vms w := rfl

lemma bulkLoad_apply (vms : List Zone) (w : Vmobjs) (k : Zonedid) :
    bulkLoad vms w k = lastWriteFor k vms (w k) :=
  upsertAll_apply vms w k

lemma writesOf_cons (e : VminfodEvent) (l : List VminfodEvent) :
    writesOf (e :: l) = eventWrites e ++ writesOf l := rfl

lemma upsertAll_append (a b : List Zone) (w : Vmobjs) :
    upsertAll (a ++ b) w = upsertAll b (upsertAll a w) :=
  List.foldl_append _ _ _ _

/-- Splitting an event fold at a list append. -/
lemma runEvents_append (s : SyncState) (a b : List VminfodEvent) :
    runEvents s (a ++ b) =
      match runEvents s a with
      | .ok s' => runEvents s' b
      | .error p => .error p := by
  induction a generalizing s with
  | nil => rfl
  | cons e tl ih =>
      have h1 : runEvents s ((e :: tl) ++ b) =
          match applyEvent s e with
          | .ok s' => runEvents s' (tl ++ b)
          | .error p => .error p := rfl
      have h2 : runEvents s (e :: tl) =
          match applyEvent s e with
          | .ok s' => runEvents s' tl
          | .error p => .error p := rfl
      rw [h1, h2]
      cases applyEvent s e with
      | ok s' => exact ih s'
      | error p => rfl

/-- On a `Ready`-free event list the fold never panics, never touches the flag,
and applies exactly the writes of the list, in order. -/
lemma runEvents_noReady (s : SyncState) (l : List VminfodEvent)
    (h : ∀ e ∈ l, e.isReady = false) :
    runEvents s l = .ok ⟨s.ready, upsertAll (writesOf l) s.cache⟩ := by
  induction l generalizing s with
  | nil => rfl
  | cons e tl ih =>
      have htl : ∀ e' ∈ tl, e'.isReady = false := fun e' he' => h e' (List.mem_cons_of_mem _ he')
      have he : e.isReady = false := h e (List.mem_cons_self _ _)
      cases e with
      | Ready vms => simp [VminfodEvent.isReady] at he
      | Create vm =>
          have h1 : runEvents s (.Create vm :: tl)
              = runEvents ⟨s.ready, insert_vmobj vm s.cache⟩ tl := rfl
          rw [h1, ih _ htl]
          rfl
      | Modify vm changes =>
          by_cases hc : alias_changed changes
          · have h1 : runEvents s (.Modify vm changes :: tl)
                = runEvents ⟨s.ready, insert_vmobj vm s.cache⟩ tl := by
              simp [runEvents, applyEvent, hc]
            rw [h1, ih _ htl]
            simp [writesOf_cons, eventWrites, hc, upsertAll]
          · have h1 : runEvents s (.Modify vm changes :: tl) = runEvents s tl := by
              simp [runEvents, applyEvent, hc]
            rw [h1, ih _ htl]
            simp [writesOf_cons, eventWrites, hc, upsertAll]
      | Delete vm =>
          have h1 : runEvents s (.Delete vm :: tl) = runEvents s tl := rfl
          rw [h1, ih _ htl]
          rfl

/-- Once the flag is up it can never come back down: every event either keeps
it or panics. -/
lemma runEvents_ready_mono (s : SyncState) (l : List VminfodEvent) (s' : SyncState)
    (h : runEvents s l = .ok s') (hr : s.ready = true) : s'.ready = true := by
  induction l generalizing s with
  | nil =>
      have hss : s = s' := by simpa [runEvents] using h
      exact hss ▸ hr
  | cons e tl ih =>
      cases e with
      | Ready vms => simp [runEvents, applyEvent, hr] at h
      | Create vm =>
          have h2 : runEvents (⟨s.ready, insert_vmobj vm s.cache⟩ : SyncState) tl = .ok s' := h
          exact ih _ h2 hr
      | Modify vm changes =>
          by_cases hc : alias_changed changes
          · have h2 : runEvents (⟨s.ready, insert_vmobj vm s.cache⟩ : SyncState) tl
                = .ok s' := by simpa [runEvents, applyEvent, hc] using h
            exact ih _ h2 hr
          · have h2 : runEvents s tl = .ok s' := by
              simpa [runEvents, applyEvent, hc] using h
            exact ih _ h2 hr
      | Delete vm =>
          have h2 : runEvents s tl = .ok s' := h
          exact ih _ h2 hr

/-- With the flag already up, any further `Ready` in the stream trips
`assert_eq!(*ready, false)`. -/
lemma runEvents_secondReady (s : SyncState) (l : List VminfodEvent)
    (hr : s.ready = true) (h : ∃ e ∈ l, e.isReady = true) :
    runEvents s l = .error .readyAssertFailed := by
  induction l generalizing s with
  | nil => rcases h with ⟨e, he, _⟩; cases he
  | cons e tl ih =>
      cases e with
      | Ready vms => simp [runEvents, applyEvent, hr]
      | Create vm =>
          rcases h with ⟨e', he', hr'⟩
          rcases List.mem_cons.mp he' with rfl | he'
          · cases hr'
          · show runEvents ⟨s.ready, insert_vmobj vm s.cache⟩ tl = _
            exact ih _ hr ⟨e', he', hr'⟩
      | Modify vm changes =>
          rcases h with ⟨e', he', hr'⟩
          rcases List.mem_cons.mp he' with rfl | he'
          · cases hr'
          · by_cases hc : alias_changed changes
            · have h2 : runEvents (⟨s.ready, insert_vmobj vm s.cache⟩ : SyncState) tl
                  = .error .readyAssertFailed := ih _ hr ⟨e', he', hr'⟩
              simpa [runEvents, applyEvent, hc] using h2
            · have h2 : runEvents s tl = .error .readyAssertFailed := ih _ hr ⟨e', he', hr'⟩
              simpa [runEvents, applyEvent, hc] using h2
      | Delete vm =>
          rcases h with ⟨e', he', hr'⟩
          rcases List.mem_cons.mp he' with rfl | he'
          · cases hr'
          · show runEvents s tl = _
            exact ih _ hr ⟨e', he', hr'⟩

/-- Specialisation of `runEvents_append` to a panic-free first half. -/
lemma runEvents_append_ok (s t : SyncState) (a b : List VminfodEvent)
    (h : runEvents s a = .ok t) : runEvents s (a ++ b) = runEvents t b := by
  rw [runEvents_append, h]

lemma take_append_cons_succ (a b : List VminfodEvent) (e : VminfodEvent) :
    (a ++ e :: b).take (a.length + 1) = a ++ [e] := by
  have h : a ++ e :: b = (a ++ [e]) ++ b := by simp
  rw [h, List.take_append_of_le_length (by simp), List.take_of_length_le (by simp)]

/-- The boolean first-segment check of `alias_changed` holds exactly when the
first path segment is present and equals `"alias"`. -/
lemma alias_head_check (c : Changes) :
    (c.path.head?.elim false (fun v => v.elim false (fun a => a == "alias")) = true)
      ↔ c.path.head? = some (some "alias") := by
  cases hh : c.path.head? with
  | none => simp
  | some v =>
      cases v with
      | none => simp
      | some a => simp [beq_iff_eq]

/-! ## Concrete data for the closed witnesses and the counterexample -/

/-- A zone record with id 1. -/
def z1 : Zone := ⟨1, "uuid-1", "one"⟩

/-- A zone record with id 2. -/
def z2 : Zone := ⟨2, "uuid-2", "two"⟩

/-- A zone record with id 5. -/
def z5 : Zone := ⟨5, "uuid-5", "five"⟩

/-- Another record with id 5 (a later write for the same zone). -/
def z5' : Zone := ⟨5, "uuid-5b", "five-b"⟩

/-- A changes payload whose first path segment is the alias field. -/
def aliasChange : Changes := ⟨[some "alias", some "x"]⟩

/-- A changes payload naming an unrelated field. -/
def otherChange : Changes := ⟨[some "quota"]⟩

/-- A changes payload whose first path segment is absent. -/
def absentChange : Changes := ⟨[none]⟩

/-! ## Claim theorems -/

/-- **C4**: for every list of changes, `alias_changed` returns `true` iff some
`ChangePath` in the list has a present first segment equal to the tracked field
(the source instantiates the tracked field to the literal `"alias"`); an absent
first segment never counts as a match, and the empty list yields `false` — the
function is total, so it returns `false` rather than erroring in those cases. -/
theorem alias_changed_iff (changes : List Changes) :
    alias_changed changes = true ↔ ∃ c ∈ changes, c.path.head? = some (some "alias") := by
  induction changes with
  | nil => simp [alias_changed]
  | cons c rest ih =>
      cases hb : (c.path.head?.elim false fun v => v.elim false fun a => a == "alias") with
      | true =>
          have hc : c.path.head? = some (some "alias") := (alias_head_check c).mp hb
          have h1 : alias_changed (c :: rest) = true := by simp [alias_changed, hb]
          exact ⟨fun _ => ⟨c, List.mem_cons_self _ _, hc⟩, fun _ => h1⟩
      | false =>
          have hc : c.path.head? ≠ some (some "alias") := fun hh => by
            rw [(alias_head_check c).mpr hh] at hb
            cases hb
          have h1 : alias_changed (c :: rest) = alias_changed rest := by
            simp [alias_changed, hb]
          rw [h1, ih]
          constructor
          · rintro ⟨c', hc', hh⟩
            exact ⟨c', List.mem_cons_of_mem _ hc', hh⟩
          · rintro ⟨c', hc', hh⟩
            rcases List.mem_cons.mp hc' with rfl | hmem
            · exact absurd hh hc
            · exact ⟨c', hmem, hh⟩

/-- **C5**: a `Modify` whose changes include the alias replaces the cache entry
for the record's zone id wholesale with the event's record; a `Modify` whose
changes exclude it leaves the whole synchronizer state — flag and cache,
hence every cached record — untouched. -/
theorem modify_upserts_iff_alias_changed (s : SyncState) (vm : Zone) (changes : List Changes) :
    (alias_changed changes = true →
        applyEvent s (.Modify vm changes) = .ok ⟨s.ready, insert_vmobj vm s.cache⟩ ∧
        insert_vmobj vm s.cache vm.zonedid = some vm) ∧
    (alias_changed changes = false →
        applyEvent s (.Modify vm changes) = .ok s) := by
  constructor
  · intro hc
    exact ⟨by simp [applyEvent, hc], by simp [insert_vmobj]⟩
  · intro hc
    simp [applyEvent, hc]

/-- Closed witness for `modify_upserts_iff_alias_changed`: an alias-touching
`Modify` upserts, a `Modify` touching only other (or absent) segments is a
no-op. -/
theorem modify_upserts_iff_alias_changed_witness :
    (applyEvent initState (.Modify z1 [aliasChange])
        = .ok ⟨false, insert_vmobj z1 emptyVmobjs⟩ ∧
      insert_vmobj z1 emptyVmobjs z1.zonedid = some z1) ∧
    applyEvent initState (.Modify z2 [otherChange, absentChange]) = .ok initState :=
  ⟨(modify_upserts_iff_alias_changed initState z1 [aliasChange]).1 (by decide),
   (modify_upserts_iff_alias_changed initState z2 [otherChange, absentChange]).2 (by decide)⟩

/-- **C6**: applying a `Delete` event returns the synchronizer state unchanged:
no cache entry is removed, modified, or added. -/
theorem delete_is_noop (s : SyncState) (vm : Zone) :
    applyEvent s (.Delete vm) = Except.ok s ∧
    ∀ k, (match applyEvent s (.Delete vm) with
          | .ok s' => s'.cache k
          | .error _ => none) = s.cache k :=
  ⟨rfl, fun _ => rfl⟩

/-- **C10**: `insert_vmobj` changes at most the entry at the record's
`zonedid`; every other key reads exactly as before. -/
theorem insert_vmobj_frame (zone : Zone) (w : Vmobjs) (k : Zonedid)
    (h : k ≠ zone.zonedid) : insert_vmobj zone w k = w k := by
  simp [insert_vmobj, h]

/-- Closed witness for `insert_vmobj_frame`: inserting the id-1 record leaves
key 5 untouched. -/
theorem insert_vmobj_frame_witness : insert_vmobj z1 emptyVmobjs 5 = emptyVmobjs 5 :=
  insert_vmobj_frame z1 emptyVmobjs 5 (by decide)

/-- **C9**: the `Ready`-arm snapshot loop (`bulkLoad`) is exactly repeated
`insert_vmobj` in list order, and pointwise the last record for each zone id
wins (so of two records sharing an id, the later one ends up cached). -/
theorem bulkLoad_eq_repeated_upsert :
    (∀ vms w, bulkLoad vms w = upsertAll vms w) ∧
    (∀ vms w k, bulkLoad vms w k = lastWriteFor k vms (w k)) :=
  ⟨fun _ _ => rfl, fun vms w k => bulkLoad_apply vms w k⟩

/-- **C8**: on a stream whose events are all applied without a mid-stream
panic, the thread body ends by panicking with the stream-closed message when
the channel closes — the loop is modelled with no normal-return outcome, and
the drained-channel outcome is specifically `streamClosed`. -/
theorem stream_close_panics (s : SyncState) (events : List VminfodEvent) (s' : SyncState)
    (h : runEvents s events = .ok s') :
    processStream s events = ThreadPanic.streamClosed := by
  simp [processStream, h]

/-- Closed witness for `stream_close_panics`. -/
theorem stream_close_panics_witness :
    processStream initState [VminfodEvent.Create z1, VminfodEvent.Delete z1]
      = ThreadPanic.streamClosed :=
  stream_close_panics initState _ ⟨false, insert_vmobj z1 emptyVmobjs⟩ rfl

/-- **C3**: once a first `Ready` has been applied (flag up), any later `Ready`
makes the fold stop with the `assert_eq!(*ready, false)` panic — the event is
never processed as a normal event — and that panic is a distinct outcome from
the snapshot-decode panic and from the stream-closed panic. -/
theorem second_ready_protocol_violation (pre post : List VminfodEvent) (vms : List Zone)
    (c0 : Vmobjs)
    (hpre : ∀ e ∈ pre, e.isReady = false)
    (hpost : ∃ e ∈ post, e.isReady = true) :
    processStream ⟨false, c0⟩ (pre ++ VminfodEvent.Ready (some vms) :: post)
        = ThreadPanic.readyAssertFailed ∧
    ThreadPanic.readyAssertFailed ≠ ThreadPanic.vmsParseFailed ∧
    ThreadPanic.readyAssertFailed ≠ ThreadPanic.streamClosed := by
  refine ⟨?_, by simp, by simp⟩
  have h1 : runEvents (⟨false, c0⟩ : SyncState) pre
      = .ok ⟨false, upsertAll (writesOf pre) c0⟩ := runEvents_noReady _ _ hpre
  have h2 := runEvents_append_ok _ _ pre (VminfodEvent.Ready (some vms) :: post) h1
  have h3 : runEvents (⟨false, upsertAll (writesOf pre) c0⟩ : SyncState)
      (VminfodEvent.Ready (some vms) :: post)
      = runEvents (⟨true, bulkLoad vms (upsertAll (writesOf pre) c0)⟩ : SyncState) post := rfl
  have h4 := runEvents_secondReady
      (⟨true, bulkLoad vms (upsertAll (writesOf pre) c0)⟩ : SyncState) post rfl hpost
  rw [h3, h4] at h2
  simp [processStream, h2]

/-- Closed witness for `second_ready_protocol_violation`: a stream with a
`Create`, a `Ready`, and then a second `Ready`. -/
theorem second_ready_protocol_violation_witness :
    processStream ⟨false, emptyVmobjs⟩
        ([VminfodEvent.Create z1] ++ VminfodEvent.Ready (some [z2]) ::
          [VminfodEvent.Ready (some [z5])])
        = ThreadPanic.readyAssertFailed ∧
    ThreadPanic.readyAssertFailed ≠ ThreadPanic.vmsParseFailed ∧
    ThreadPanic.readyAssertFailed ≠ ThreadPanic.streamClosed :=
  second_ready_protocol_violation [VminfodEvent.Create z1] [VminfodEvent.Ready (some [z5])]
    [z2] emptyVmobjs (by decide) (by decide)

/-- **C1**: on a stream consisting of one (decodable) `Ready` followed by any
`Ready`-free tail, the fold never panics and the final cache maps every zone
id to the last record written for it — among the snapshot records, `Create`
records, and records of `Modify` events whose changes touch the alias — and
every id that was ever written is still present (`Delete` removes nothing). -/
theorem final_cache_last_write_wins (vms : List Zone) (rest : List VminfodEvent)
    (hrest : ∀ e ∈ rest, e.isReady = false) :
    ∃ s : SyncState,
      runEvents initState (VminfodEvent.Ready (some vms) :: rest) = .ok s ∧
      (∀ k, s.cache k = lastWriteFor k (vms ++ writesOf rest) none) ∧
      (∀ z ∈ vms ++ writesOf rest, s.cache z.zonedid ≠ none) := by
  refine ⟨⟨true, upsertAll (writesOf rest) (bulkLoad vms emptyVmobjs)⟩, ?_, ?_, ?_⟩
  · have h0 : runEvents initState (VminfodEvent.Ready (some vms) :: rest)
        = runEvents (⟨true, bulkLoad vms emptyVmobjs⟩ : SyncState) rest := rfl
    rw [h0]
    exact runEvents_noReady _ _ hrest
  · intro k
    show upsertAll (writesOf rest) (bulkLoad vms emptyVmobjs) k = _
    rw [upsertAll_apply, bulkLoad_apply, lastWriteFor_append]
    rfl
  · intro z hz
    show upsertAll (writesOf rest) (bulkLoad vms emptyVmobjs) z.zonedid ≠ none
    rw [upsertAll_apply, bulkLoad_apply, ← lastWriteFor_append]
    exact lastWriteFor_mem_ne_none _ _ _ ⟨z, hz, rfl⟩

/-- Closed witness for `final_cache_last_write_wins`: snapshot `[z1, z5]`, then
a `Create` of `z2`, an alias-touching `Modify` replacing zone 5, and a
`Delete` of `z1`. -/
theorem final_cache_last_write_wins_witness :
    ∃ s : SyncState,
      runEvents initState (VminfodEvent.Ready (some [z1, z5]) ::
          [VminfodEvent.Create z2, VminfodEvent.Modify z5' [aliasChange],
            VminfodEvent.Delete z1])
        = .ok s ∧
      (∀ k, s.cache k = lastWriteFor k ([z1, z5] ++
          writesOf [VminfodEvent.Create z2, VminfodEvent.Modify z5' [aliasChange],
            VminfodEvent.Delete z1]) none) ∧
      (∀ z ∈ [z1, z5] ++ writesOf [VminfodEvent.Create z2,
          VminfodEvent.Modify z5' [aliasChange], VminfodEvent.Delete z1],
        s.cache z.zonedid ≠ none) :=
  final_cache_last_write_wins [z1, z5]
    [VminfodEvent.Create z2, VminfodEvent.Modify z5' [aliasChange], VminfodEvent.Delete z1]
    (by decide)

/-- **C2** counterexample: a `Create` of the id-5 record before the first
`Ready` leaves key 5 populated — the cache is not empty immediately before the
`Ready` is applied — and after a `Ready` whose snapshot is `[z1]` (ids `{1}`)
key 5 still holds that record, so the cache does not contain exactly the
snapshot's records: the baseline does not erase the partial state that
preceded it. -/
theorem cache_empty_before_ready_counterexample :
    runEvents initState [VminfodEvent.Create z5]
        = .ok ⟨false, insert_vmobj z5 emptyVmobjs⟩ ∧
    insert_vmobj z5 emptyVmobjs 5 = some z5 ∧
    runEvents initState [VminfodEvent.Create z5, VminfodEvent.Ready (some [z1])]
        = .ok ⟨true, bulkLoad [z1] (insert_vmobj z5 emptyVmobjs)⟩ ∧
    bulkLoad [z1] (insert_vmobj z5 emptyVmobjs) 5 = some z5 ∧
    (∀ z ∈ [z1], z.zonedid ≠ 5) :=
  ⟨rfl, rfl, rfl, rfl, by decide⟩

/-- **C2** (amended): the cache starts empty, but pre-`Ready` events are
applied opportunistically, so it need not be empty immediately before the
first `Ready` (it is exactly when no event precedes the `Ready`); applying the
first `Ready` does not clear the cache — it overwrites per id: afterwards
every id occurring in the snapshot maps to the snapshot's last record for it,
while entries under ids absent from the snapshot are left exactly as they
were before the `Ready`. -/
theorem ready_overwrites_per_id (pre : List VminfodEvent) (vms : List Zone)
    (hpre : ∀ e ∈ pre, e.isReady = false) :
    ∃ sPre : SyncState,
      runEvents initState pre = .ok sPre ∧ sPre.ready = false ∧
      (pre = [] → ∀ k, sPre.cache k = none) ∧
      runEvents initState (pre ++ [VminfodEvent.Ready (some vms)])
          = .ok ⟨true, bulkLoad vms sPre.cache⟩ ∧
      (∀ k, lastWriteFor k vms none ≠ none →
          bulkLoad vms sPre.cache k = lastWriteFor k vms none) ∧
      (∀ k, lastWriteFor k vms none = none →
          bulkLoad vms sPre.cache k = sPre.cache k) := by
  refine ⟨⟨false, upsertAll (writesOf pre) emptyVmobjs⟩,
    runEvents_noReady _ _ hpre, rfl, ?_, ?_, ?_, ?_⟩
  · intro hpre0 k
    subst hpre0
    rfl
  · have h1 : runEvents initState pre
        = .ok ⟨false, upsertAll (writesOf pre) emptyVmobjs⟩ := runEvents_noReady _ _ hpre
    rw [runEvents_append_ok _ _ pre [VminfodEvent.Ready (some vms)] h1]
    rfl
  · intro k h
    rw [bulkLoad_apply, lastWriteFor_elim]
    cases hlast : lastWriteFor k vms none with
    | none => exact absurd hlast h
    | some w => rfl
  · intro k h
    rw [bulkLoad_apply, lastWriteFor_elim, h]
    rfl

/-- Closed witness for `ready_overwrites_per_id`: one `Create` of the id-5
record, then a `Ready` with snapshot `[z1]`. -/
theorem ready_overwrites_per_id_witness :
    ∃ sPre : SyncState,
      runEvents initState [VminfodEvent.Create z5] = .ok sPre ∧ sPre.ready = false ∧
      ([VminfodEvent.Create z5] = [] → ∀ k, sPre.cache k = none) ∧
      runEvents initState ([VminfodEvent.Create z5] ++ [VminfodEvent.Ready (some [z1])])
          = .ok ⟨true, bulkLoad [z1] sPre.cache⟩ ∧
      (∀ k, lastWriteFor k [z1] none ≠ none →
          bulkLoad [z1] sPre.cache k = lastWriteFor k [z1] none) ∧
      (∀ k, lastWriteFor k [z1] none = none →
          bulkLoad [z1] sPre.cache k = sPre.cache k) :=
  ready_overwrites_per_id [VminfodEvent.Create z5] [z1] (by decide)

/-- **C7**: over the prefixes of any stream whose first `Ready` (decodable)
sits after a `Ready`-free prefix, the flag on which `start_vminfod` blocks
(`while !*ready { cvar.wait }`) is false after every prefix up to and
including the pre-`Ready` events — so the calling thread keeps waiting — and
becomes true exactly at the step applying the `Ready`, in the same state in
which the snapshot has been fully bulk-loaded, and stays true ever after: the
flag flips false→true exactly once, and `start_vminfod` returns exactly once
that step has completed. -/
theorem start_blocks_until_ready (pre post : List VminfodEvent) (vms : List Zone)
    (hpre : ∀ e ∈ pre, e.isReady = false) :
    (∀ m, m ≤ pre.length →
        ∃ c, runEvents initState ((pre ++ VminfodEvent.Ready (some vms) :: post).take m)
          = .ok ⟨false, c⟩) ∧
    (∃ c, runEvents initState pre = .ok ⟨false, c⟩ ∧
        runEvents initState
            ((pre ++ VminfodEvent.Ready (some vms) :: post).take (pre.length + 1))
          = .ok ⟨true, bulkLoad vms c⟩) ∧
    (∀ m s', runEvents initState ((pre ++ VminfodEvent.Ready (some vms) :: post).take m)
          = .ok s' → pre.length + 1 ≤ m → s'.ready = true) := by
  have h1 : runEvents initState pre
      = .ok ⟨false, upsertAll (writesOf pre) emptyVmobjs⟩ := runEvents_noReady _ _ hpre
  have h2 : runEvents initState (pre ++ [VminfodEvent.Ready (some vms)])
      = .ok ⟨true, bulkLoad vms (upsertAll (writesOf pre) emptyVmobjs)⟩ := by
    rw [runEvents_append_ok _ _ pre [VminfodEvent.Ready (some vms)] h1]
    rfl
  refine ⟨?_, ?_, ?_⟩
  · intro m hm
    refine ⟨upsertAll (writesOf (pre.take m)) emptyVmobjs, ?_⟩
    rw [List.take_append_of_le_length hm]
    exact runEvents_noReady _ _ (fun e he => hpre e (List.take_subset _ _ he))
  · refine ⟨upsertAll (writesOf pre) emptyVmobjs, h1, ?_⟩
    rw [take_append_cons_succ]
    exact h2
  · intro m s' hrun hm
    have hsplit : (pre ++ VminfodEvent.Ready (some vms) :: post).take m
        = (pre ++ [VminfodEvent.Ready (some vms)])
            ++ post.take (m - (pre.length + 1)) := by
      have hmm : pre ++ VminfodEvent.Ready (some vms) :: post
          = (pre ++ [VminfodEvent.Ready (some vms)]) ++ post := by simp
      rw [hmm, List.take_append_eq_append_take,
        List.take_of_length_le (by simpa using hm)]
      simp
    rw [hsplit, runEvents_append_ok _ _ _ _ h2] at hrun
    exact runEvents_ready_mono _ _ _ hrun rfl

/-- Closed witness for `start_blocks_until_ready`: one pre-`Ready` `Create`,
then the `Ready` with snapshot `[z1]`, no further events. -/
theorem start_blocks_until_ready_witness :
    (∀ m, m ≤ 1 →
        ∃ c, runEvents initState
            (([VminfodEvent.Create z2] ++ VminfodEvent.Ready (some [z1]) :: []).take m)
          = .ok ⟨false, c⟩) ∧
    (∃ c, runEvents initState [VminfodEvent.Create z2] = .ok ⟨false, c⟩ ∧
        runEvents initState
            (([VminfodEvent.Create z2] ++ VminfodEvent.Ready (some [z1]) :: []).take 2)
          = .ok ⟨true, bulkLoad [z1] c⟩) ∧
    (∀ m s', runEvents initState
            (([VminfodEvent.Create z2] ++ VminfodEvent.Ready (some [z1]) :: []).take m)
          = .ok s' → 2 ≤ m → s'.ready = true) :=
  start_blocks_until_ready [VminfodEvent.Create z2] [] [z1] (by decide)

end Cfwlogd
